import Mathlib

/-!
Verification of the Chronos data-pipeline utilities of the AutoGluon
timeseries component, embedded shallowly from
`timeseries/src/autogluon/timeseries/models/chronos/pipeline/utils.py`
and `timeseries/src/autogluon/timeseries/models/chronos/model.py`.

Numeric observations are modelled as `Option α`: `none` is the missing-value
sentinel (`NaN` in the source), `some v` an actual observation.  Wall-clock
time is modelled as a rational number; `time.monotonic()` readings are passed
in explicitly.  Randomness (`torch.randint(n)`, which returns a value in
`[0, n)`) is modelled by an arbitrary stream `rand : Nat → Nat` of which the
k-th draw over a buffer of size `n` selects index `rand k % n`.
-/

namespace ChronosUtils

/-! ### ChronosInferenceDataset (utils.py lines 248-281) -/

/-- Embeds `ChronosInferenceDataset._get_context`: take the last
`contextLength` observations (`a[-context_length:]`) and left-pad with the
missing-value sentinel up to exactly `contextLength` entries. -/
def getContext (contextLength : Nat) (a : List (Option α)) : List (Option α) :=
  let t := a.drop (a.length - contextLength)
  let padSize := contextLength - t.length
  List.replicate padSize none ++ t

/-- State of a constructed `ChronosInferenceDataset`: the flattened
concatenation of all series (`target_array`) plus the cumulative offset
pointers (`indptr`).  The source stores `indptr` with dtype `np.int32`, so
its entries live in `[-2^31, 2^31)` and are modelled as `Int`. -/
structure ChronosInferenceDataset (α : Type) where
  contextLength : Nat
  targetArray : List (Option α)
  indptr : List Int

/-- Embeds `np.ndarray.cumsum` with a running accumulator.  (The source
cumsum runs in int64; its own wrap at `2^63` is not modelled, only the
subsequent `astype(np.int32)` cast is.) -/
def cumsumFrom (acc : Nat) : List Nat → List Nat
  | [] => []
  | x :: xs => (acc + x) :: cumsumFrom (acc + x) xs

/-- The exact cumulative offsets `np.append(0, sizes.cumsum())` before the
int32 cast. -/
def natIndptr (series : List (List (Option α))) : List Nat :=
  0 :: cumsumFrom 0 (series.map List.length)

/-- Embeds `ChronosInferenceDataset.__init__` (the `assert context_length > 0`
guard is modelled separately in `mkInferenceDatasetChecked`): flatten the
series in input order and store `indptr = np.append(0, cum_sizes)
.astype(np.int32)`.  The `astype(np.int32)` cast wraps each offset to
two's-complement 32-bit range, i.e. `Int.bmod · (2^32)`. -/
def mkInferenceDataset (series : List (List (Option α))) (contextLength : Nat) :
    ChronosInferenceDataset α :=
  { contextLength := contextLength
    targetArray := series.flatten
    indptr := (natIndptr series).map
      (fun n : Nat => Int.bmod (n : Int) (2 ^ 32)) }

/-- Resolution of one (possibly negative) Python slice endpoint against a
sequence of length `len`, step 1: a negative index counts from the end,
clamped below at 0; a non-negative index is clamped above at `len`. -/
def pySliceIndex (len : Nat) (i : Int) : Nat :=
  if i < 0 then len - (-i).toNat else min i.toNat len

/-- Python/numpy basic slicing `a[start:stop]` with possibly negative
`start`/`stop` (as produced by int32-wrapped offsets). -/
def pySlice (a : List β) (start stop : Int) : List β :=
  (a.take (pySliceIndex a.length stop)).drop (pySliceIndex a.length start)

/-- Embeds `ChronosInferenceDataset.__getitem__`: slice
`target_array[indptr[idx] : indptr[idx+1]]` with Python slice semantics and
apply `_get_context`. -/
def getitem (d : ChronosInferenceDataset α) (idx : Nat) : List (Option α) :=
  let s := d.indptr.getD idx 0
  let e := d.indptr.getD (idx + 1) 0
  getContext d.contextLength (pySlice d.targetArray s e)

/-- Embeds `ChronosInferenceDataset.__len__`. -/
def datasetLen (d : ChronosInferenceDataset α) : Nat :=
  d.indptr.length - 1

theorem cumsumFrom_length (acc : Nat) (xs : List Nat) :
    (cumsumFrom acc xs).length = xs.length := by
  induction xs generalizing acc with
  | nil => rfl
  | cons x xs ih => simp [cumsumFrom, ih]

theorem cumsumFrom_eq_map_add (acc : Nat) (xs : List Nat) :
    cumsumFrom acc xs = (cumsumFrom 0 xs).map (acc + ·) := by
  induction xs generalizing acc with
  | nil => rfl
  | cons x xs ih =>
    show (acc + x) :: cumsumFrom (acc + x) xs =
      ((0 + x) :: cumsumFrom (0 + x) xs).map (acc + ·)
    rw [ih (acc + x), ih (0 + x), List.map_cons, List.map_map]
    congr 1
    · omega
    · congr 1
      funext y
      simp only [Function.comp_apply]
      omega

theorem natIndptr_shift (s : List (Option α)) (rest : List (List (Option α)))
    (i : Nat) (hi : i ≤ rest.length) :
    (natIndptr (s :: rest)).getD (i + 1) 0 =
      s.length + (natIndptr rest).getD i 0 := by
  simp only [natIndptr, List.map_cons, cumsumFrom]
  match i with
  | 0 => simp
  | j + 1 =>
    simp only [List.getD_cons_succ]
    have hj : j < (cumsumFrom 0 (rest.map List.length)).length := by
      rw [cumsumFrom_length, List.length_map]; omega
    rw [cumsumFrom_eq_map_add (0 + s.length),
      List.getD_eq_getElem?_getD, List.getElem?_map,
      List.getElem?_eq_getElem hj, List.getD_eq_getElem?_getD,
      List.getElem?_eq_getElem hj]
    simp only [Option.map_some', Option.getD_some]
    omega

theorem natSlice_eq_getContext (series : List (List (Option α))) (W : Nat)
    (i : Nat) (hi : i < series.length) :
    getContext W ((series.flatten.drop ((natIndptr series).getD i 0)).take
        ((natIndptr series).getD (i + 1) 0 - (natIndptr series).getD i 0)) =
      getContext W (series.get ⟨i, hi⟩) := by
  induction series generalizing i with
  | nil => simp at hi
  | cons s rest ih =>
    match i with
    | 0 =>
      simp only [natIndptr, List.map_cons, cumsumFrom, Nat.zero_add,
        List.getD_cons_zero, List.getD_cons_succ, List.flatten_cons,
        List.drop_zero, Nat.sub_zero]
      rw [List.take_left]
      rfl
    | j + 1 =>
      have hj : j < rest.length := by simpa using hi
      have h1 := natIndptr_shift s rest j (Nat.le_of_lt hj)
      have h2 := natIndptr_shift s rest (j + 1) hj
      rw [h1, h2, List.flatten_cons]
      have hdrop : (s ++ rest.flatten).drop
          (s.length + (natIndptr rest).getD j 0) =
          rest.flatten.drop ((natIndptr rest).getD j 0) := by
        rw [List.drop_append_eq_append_drop]
        simp
      rw [hdrop]
      have hsub : s.length + (natIndptr rest).getD (j + 1) 0
          - (s.length + (natIndptr rest).getD j 0) =
          (natIndptr rest).getD (j + 1) 0 - (natIndptr rest).getD j 0 := by
        omega
      rw [hsub, ih j hj]
      rfl

theorem natIndptr_length (series : List (List (Option α))) :
    (natIndptr series).length = series.length + 1 := by
  simp [natIndptr, cumsumFrom_length]

theorem cumsumFrom_getD_le_sum (acc : Nat) (xs : List Nat) (j : Nat) :
    (cumsumFrom acc xs).getD j 0 ≤ acc + xs.sum := by
  induction xs generalizing acc j with
  | nil => simp [cumsumFrom]
  | cons x xs ih =>
    match j with
    | 0 =>
      simp only [cumsumFrom, List.getD_cons_zero, List.sum_cons]
      omega
    | k + 1 =>
      simp only [cumsumFrom, List.getD_cons_succ, List.sum_cons]
      have := ih (acc + x) k
      omega

theorem natIndptr_getD_le (series : List (List (Option α))) (j : Nat) :
    (natIndptr series).getD j 0 ≤ series.flatten.length := by
  rw [List.length_flatten]
  match j with
  | 0 => simp [natIndptr]
  | k + 1 =>
    simp only [natIndptr, List.getD_cons_succ]
    have := cumsumFrom_getD_le_sum 0 (series.map List.length) k
    omega

theorem cumsumFrom_getD_mono (acc : Nat) (xs : List Nat) (j : Nat)
    (hj : j + 1 < xs.length) :
    (cumsumFrom acc xs).getD j 0 ≤ (cumsumFrom acc xs).getD (j + 1) 0 := by
  induction xs generalizing acc j with
  | nil => simp at hj
  | cons x xs ih =>
    match j with
    | 0 =>
      match xs with
      | [] => simp at hj
      | y :: ys =>
        simp only [cumsumFrom, List.getD_cons_zero, List.getD_cons_succ]
        omega
    | k + 1 =>
      simp only [cumsumFrom, List.getD_cons_succ]
      exact ih (acc + x) k (by simpa using hj)

theorem natIndptr_getD_mono (series : List (List (Option α))) (i : Nat)
    (hi : i < series.length) :
    (natIndptr series).getD i 0 ≤ (natIndptr series).getD (i + 1) 0 := by
  match i with
  | 0 => simp [natIndptr]
  | j + 1 =>
    simp only [natIndptr, List.getD_cons_succ]
    exact cumsumFrom_getD_mono 0 (series.map List.length) j
      (by rw [List.length_map]; omega)

theorem bmod32_eq_self (n : Nat) (h : n < 2 ^ 31) :
    Int.bmod (n : Int) (2 ^ 32) = n := by
  rw [Int.bmod]
  norm_num
  omega

theorem getD_map_bmod (M : Nat) (l : List Nat) (idx : Nat)
    (hlt : idx < l.length) :
    (l.map (fun n : Nat => Int.bmod (n : Int) M)).getD idx 0 =
      Int.bmod ((l.getD idx 0 : Nat) : Int) M := by
  rw [List.getD_eq_getElem?_getD, List.getElem?_map,
    List.getElem?_eq_getElem hlt]
  simp only [Option.map_some', Option.getD_some]
  rw [List.getD_eq_getElem?_getD, List.getElem?_eq_getElem hlt]
  rfl

theorem indptr_getD_bmod (series : List (List (Option α))) (W idx : Nat)
    (hlt : idx < (natIndptr series).length) :
    (mkInferenceDataset series W).indptr.getD idx 0 =
      Int.bmod ((natIndptr series).getD idx 0 : Int) (2 ^ 32) :=
  getD_map_bmod (2 ^ 32) (natIndptr series) idx hlt

theorem getitem_eval (d : ChronosInferenceDataset α) (idx W : Nat)
    (arr : List (Option α)) (a b : Int) (hW : d.contextLength = W)
    (harr : d.targetArray = arr) (ha : d.indptr.getD idx 0 = a)
    (hb : d.indptr.getD (idx + 1) 0 = b) :
    getitem d idx = getContext W (pySlice arr a b) := by
  show getContext d.contextLength (pySlice d.targetArray
    (d.indptr.getD idx 0) (d.indptr.getD (idx + 1) 0)) =
    getContext W (pySlice arr a b)
  rw [hW, harr, ha, hb]

theorem indptr_getD_eq_natIndptr (series : List (List (Option α)))
    (W idx : Nat) (hidx : idx ≤ series.length)
    (hbound : series.flatten.length < 2 ^ 31) :
    (mkInferenceDataset series W).indptr.getD idx 0 =
      ((natIndptr series).getD idx 0 : Int) := by
  have hlt : idx < (natIndptr series).length := by
    rw [natIndptr_length]; omega
  have hv : (natIndptr series).getD idx 0 < 2 ^ 31 := by
    have := natIndptr_getD_le series idx
    omega
  exact (getD_map_bmod (2 ^ 32) (natIndptr series) idx hlt).trans
    (bmod32_eq_self _ hv)

theorem pySlice_natCast (a : List β) (s e : Nat) (hs : s ≤ e)
    (he : e ≤ a.length) :
    pySlice a (s : Int) (e : Int) = (a.drop s).take (e - s) := by
  have hsI : ¬ ((s : Int) < 0) := by omega
  have heI : ¬ ((e : Int) < 0) := by omega
  simp only [pySlice, pySliceIndex, if_neg hsI, if_neg heI, Int.toNat_ofNat,
    Int.toNat_natCast]
  rw [min_eq_left he, min_eq_left (le_trans hs he), List.drop_take]

theorem getitem_eq_getContext (series : List (List (Option α))) (W : Nat)
    (i : Nat) (hi : i < series.length)
    (hbound : series.flatten.length < 2 ^ 31) :
    getitem (mkInferenceDataset series W) i =
      getContext W (series.get ⟨i, hi⟩) := by
  have hs := indptr_getD_eq_natIndptr series W i (Nat.le_of_lt hi) hbound
  have he := indptr_getD_eq_natIndptr series W (i + 1) hi hbound
  have harr : (mkInferenceDataset series W).targetArray = series.flatten :=
    rfl
  have hcl : (mkInferenceDataset series W).contextLength = W := rfl
  rw [getitem, hs, he, harr, hcl,
    pySlice_natCast _ _ _ (natIndptr_getD_mono series i hi)
      (natIndptr_getD_le series (i + 1))]
  exact natSlice_eq_getContext series W i hi

theorem getContext_length (W : Nat) (a : List (Option α)) :
    (getContext W a).length = W := by
  simp only [getContext, List.length_append, List.length_replicate,
    List.length_drop]
  omega

theorem getContext_tail (W : Nat) (a : List (Option α)) :
    (getContext W a).drop (W - min a.length W) =
      a.drop (a.length - min a.length W) := by
  simp only [getContext]
  have hlen : (a.drop (a.length - W)).length = min a.length W := by
    simp [List.length_drop]; omega
  have hpad : W - (a.drop (a.length - W)).length = W - min a.length W := by
    rw [hlen]
  rw [hpad, List.drop_append_eq_append_drop]
  have h1 : W - min a.length W ≥ (List.replicate (W - min a.length W)
      (none : Option α)).length := by simp
  have h2 : List.drop (W - min a.length W)
      (List.replicate (W - min a.length W) (none : Option α)) = [] := by
    simp
  rw [h2, List.nil_append, List.length_replicate]
  have h3 : W - min a.length W - (W - min a.length W) = 0 := by omega
  rw [h3, List.drop_zero]
  congr 1
  omega

theorem getContext_pad (W : Nat) (a : List (Option α)) :
    (getContext W a).take (W - a.length) =
      List.replicate (W - a.length) none := by
  simp only [getContext]
  have hlen : (a.drop (a.length - W)).length = min a.length W := by
    simp [List.length_drop]; omega
  rw [hlen]
  have hcase : W - min a.length W = W - a.length := by omega
  rw [hcase, List.take_append_of_le_length (by simp), List.take_replicate]
  congr 1
  omega

/-! ### PseudoShuffledIterableDataset (utils.py lines 26-56) -/

/-- Embeds the drain loop of `PseudoShuffledIterableDataset.__iter__`
(`while shuffle_buffer: yield shuffle_buffer.pop(randint(len(buffer)))`).
The k-th random draw selects index `rand k % buffer.length`. -/
def pseudoShuffleDrain (rand : Nat → Nat) (buf : List α) (k : Nat) :
    List α :=
  match buf with
  | [] => []
  | x :: xs =>
    let i := rand k % (x :: xs).length
    (x :: xs).getD i x ::
      pseudoShuffleDrain rand ((x :: xs).eraseIdx i) (k + 1)
  termination_by buf.length
  decreasing_by
    have hlt : rand k % (x :: xs).length < (x :: xs).length :=
      Nat.mod_lt _ (by simp)
    simp only [List.length_eraseIdx, hlt, if_pos]
    simp

/-- Embeds the main loop of `PseudoShuffledIterableDataset.__iter__`: append
each incoming element to the buffer and, once the buffer holds at least
`shuffle_buffer_size` elements, pop a random element and yield it; drain the
buffer after the source is exhausted. -/
def pseudoShuffleGo (B : Nat) (rand : Nat → Nat) (buf : List α)
    (input : List α) (k : Nat) : List α :=
  match input with
  | [] => pseudoShuffleDrain rand buf k
  | x :: rest =>
    let buf2 := buf ++ [x]
    if B ≤ buf2.length then
      let i := rand k % buf2.length
      buf2.getD i x :: pseudoShuffleGo B rand (buf2.eraseIdx i) rest (k + 1)
    else
      pseudoShuffleGo B rand buf2 rest k

/-- The full emission sequence of `PseudoShuffledIterableDataset.__iter__`
over a finite base dataset, starting from an empty buffer. -/
def pseudoShuffle (B : Nat) (rand : Nat → Nat) (l : List α) : List α :=
  pseudoShuffleGo B rand [] l 0

theorem cons_getD_eraseIdx_perm (l : List α) (i : Nat) (x : α)
    (h : i < l.length) : (l.getD i x :: l.eraseIdx i).Perm l := by
  induction l generalizing i with
  | nil => simp at h
  | cons y ys ih =>
    match i with
    | 0 => simp [List.eraseIdx]
    | j + 1 =>
      have hj : j < ys.length := by simpa using h
      simp only [List.getD_cons_succ, List.eraseIdx_cons_succ]
      exact ((List.Perm.swap y (ys.getD j x) _).trans
        (List.Perm.cons y (ih j hj)))

theorem pseudoShuffleDrain_perm_aux (rand : Nat → Nat) (n : Nat) :
    ∀ (buf : List α), buf.length ≤ n → ∀ (k : Nat),
      (pseudoShuffleDrain rand buf k).Perm buf := by
  induction n with
  | zero =>
    intro buf h k
    have hbuf : buf = [] := List.length_eq_zero.mp (Nat.le_zero.mp h)
    subst hbuf
    rw [pseudoShuffleDrain]
  | succ n ih =>
    intro buf h k
    match buf with
    | [] => rw [pseudoShuffleDrain]
    | x :: xs =>
      rw [pseudoShuffleDrain]
      have hlt : rand k % (x :: xs).length < (x :: xs).length :=
        Nat.mod_lt _ (by simp)
      have hdec : ((x :: xs).eraseIdx (rand k % (x :: xs).length)).length
          ≤ n := by
        simp only [List.length_eraseIdx, hlt, if_pos]
        simp only [List.length_cons] at h ⊢
        omega
      exact (List.Perm.cons _ (ih _ hdec (k + 1))).trans
        (cons_getD_eraseIdx_perm _ _ _ hlt)

theorem pseudoShuffleDrain_perm (rand : Nat → Nat) (buf : List α) (k : Nat) :
    (pseudoShuffleDrain rand buf k).Perm buf :=
  pseudoShuffleDrain_perm_aux rand buf.length buf (Nat.le_refl _) k

theorem pseudoShuffleGo_perm (B : Nat) (rand : Nat → Nat) (input : List α) :
    ∀ (buf : List α) (k : Nat),
      (pseudoShuffleGo B rand buf input k).Perm (buf ++ input) := by
  induction input with
  | nil =>
    intro buf k
    simpa using pseudoShuffleDrain_perm rand buf k
  | cons x rest ih =>
    intro buf k
    rw [pseudoShuffleGo]
    simp only
    by_cases hB : B ≤ (buf ++ [x]).length
    · rw [if_pos hB]
      have hpos : 0 < (buf ++ [x]).length := by simp
      have hlt : rand k % (buf ++ [x]).length < (buf ++ [x]).length :=
        Nat.mod_lt _ hpos
      have step1 : ((buf ++ [x]).getD (rand k % (buf ++ [x]).length) x ::
          pseudoShuffleGo B rand
            ((buf ++ [x]).eraseIdx (rand k % (buf ++ [x]).length)) rest
            (k + 1)).Perm
          ((buf ++ [x]).getD (rand k % (buf ++ [x]).length) x ::
            ((buf ++ [x]).eraseIdx (rand k % (buf ++ [x]).length) ++ rest)) :=
        List.Perm.cons _ (ih _ _)
      refine step1.trans ?_
      have step2 : (((buf ++ [x]).getD (rand k % (buf ++ [x]).length) x ::
          (buf ++ [x]).eraseIdx (rand k % (buf ++ [x]).length)) ++ rest).Perm
          ((buf ++ [x]) ++ rest) :=
        (cons_getD_eraseIdx_perm _ _ _ hlt).append_right rest
      refine (List.Perm.of_eq rfl).trans (step2.trans ?_)
      rw [List.append_assoc]
      exact List.Perm.append_left buf (List.perm_middle.symm.trans
        (by simp))
    · rw [if_neg hB]
      refine (ih _ _).trans ?_
      rw [List.append_assoc]
      exact List.Perm.append_left buf (by simp)

theorem pseudoShuffle_perm (B : Nat) (rand : Nat → Nat) (l : List α) :
    (pseudoShuffle B rand l).Perm l := by
  simpa using pseudoShuffleGo_perm B rand l [] 0

theorem pseudoShuffleGo_one_id (rand : Nat → Nat) (l : List α) :
    ∀ k : Nat, pseudoShuffleGo 1 rand [] l k = l := by
  induction l with
  | nil =>
    intro k
    rw [pseudoShuffleGo, pseudoShuffleDrain]
  | cons x rest ih =>
    intro k
    rw [pseudoShuffleGo]
    simp only [List.nil_append, List.length_cons, List.length_nil,
      Nat.zero_add, Nat.mod_one, if_pos (Nat.le_refl 1), List.getD_cons_zero,
      List.eraseIdx_cons_zero]
    rw [ih (k + 1)]

/-! ### Configuration guards, shuffle wrapper, and data loader -/

/-- Error raised by a failed configuration `assert` in the source. -/
inductive ConfigError
  | invalidConfiguration
deriving DecidableEq

/-- Embeds `ChronosInferenceDataset.__init__` together with its
`assert context_length > 0` guard: construction fails eagerly when the
configured window width is non-positive. -/
def mkInferenceDatasetChecked (series : List (List (Option α)))
    (contextLength : Int) : Except ConfigError (ChronosInferenceDataset α) :=
  if contextLength ≤ 0 then .error .invalidConfiguration
  else .ok (mkInferenceDataset series contextLength.toNat)

/-- Embeds `ChronosFineTuningDataset.shuffle` at the level of emitted
sequences: `assert shuffle_buffer_size is None or shuffle_buffer_size >= 0`
is modelled as an eager `ConfigError`; `if not shuffle_buffer_size: return
self` makes both `None` and `0` a pass-through; otherwise the result iterates
as `PseudoShuffledIterableDataset` over the base sequence. -/
def shuffleE (base : List α) (rand : Nat → Nat) :
    Option Int → Except ConfigError (List α)
  | none => .ok base
  | some b =>
    if b < 0 then .error .invalidConfiguration
    else if b = 0 then .ok base
    else .ok (pseudoShuffle b.toNat rand base)

/-- Embeds `timeout_callback`: returns `true` exactly when the returned
callback raises `TimeLimitExceeded`, i.e. when a limit is configured and the
monotonic time `now` exceeds `startTime` (the construction time) by more
than `seconds`. -/
def timeoutCallbackRaises (seconds : Option ℚ) (startTime now : ℚ) : Bool :=
  match seconds with
  | none => false
  | some s => decide (now - startTime > s)

/-- Embeds `ChronosInferenceDataLoader.__iter__`: each batch is yielded
first, then the `on_batch` callback runs; `clock k` is the monotonic time at
the k-th callback invocation.  Returns the list of yielded batches and
whether `TimeLimitExceeded` was raised. -/
def loaderEmit (seconds : Option ℚ) (startTime : ℚ) (clock : Nat → ℚ) :
    List β → Nat → List β × Bool
  | [], _ => ([], false)
  | b :: rest, k =>
    if timeoutCallbackRaises seconds startTime (clock k) then ([b], true)
    else
      let r := loaderEmit seconds startTime clock rest (k + 1)
      (b :: r.1, r.2)

/-! ### TimeLimitCallback (utils.py lines 305-327) -/

/-- The slice of the HuggingFace `TrainerControl` that the source mutates. -/
structure TrainerControl where
  should_training_stop : Bool
deriving DecidableEq

/-- State of `TimeLimitCallback`: the configured limit and the start
timestamp recorded by `on_train_begin` (initially `None`). -/
structure TimeLimitCallbackState where
  time_limit : ℚ
  start_time : Option ℚ
deriving DecidableEq

/-- Embeds `TimeLimitCallback.on_train_begin`: records the current monotonic
time as the start timestamp. -/
def onTrainBegin (cb : TimeLimitCallbackState) (now : ℚ) :
    TimeLimitCallbackState :=
  { cb with start_time := some now }

/-- Embeds `TimeLimitCallback.on_step_end`: sets
`control.should_training_stop = True` when the elapsed time since the
recorded start reaches `time_limit`; otherwise leaves the control unchanged.
(The trainer protocol guarantees `on_train_begin` runs before any step end;
the `none` branch is unreachable in that protocol.) -/
def onStepEnd (cb : TimeLimitCallbackState) (now : ℚ)
    (control : TrainerControl) : TrainerControl :=
  match cb.start_time with
  | none => control
  | some t0 =>
    if now - t0 ≥ cb.time_limit then { control with should_training_stop := true }
    else control

/-! ### Context-length capping (model.py lines 162-199 and 535-540) -/

/-- `ChronosModel.maximum_context_length`. -/
def maximumContextLength : Nat := 2048

/-- Embeds the capping branch of `ChronosModel.__init__`: a configured
`context_length` greater than the maximum is reduced to the maximum; `None`
stays `None`. -/
def initContextLength : Option Nat → Option Nat
  | none => none
  | some c =>
    if c > maximumContextLength then some maximumContextLength else some c

/-- Embeds `ChronosModel._get_context_length`:
`self.context_length or min(longest, maximum)`.  Python `or` falls through
both when `context_length` is `None` and when it is the falsy `0`. -/
def getContextLength (configured : Option Nat) (longestItemLength : Nat) :
    Nat :=
  match configured with
  | none => min longestItemLength maximumContextLength
  | some c =>
    if c = 0 then min longestItemLength maximumContextLength else c

/-- The context length effectively used at prediction time: the value stored
by `__init__` fed through `_get_context_length`. -/
def effectiveContextLength (configured : Option Nat) (longest : Nat) : Nat :=
  getContextLength (initContextLength configured) longest

/-! ### Instance splitting (utils.py lines 109-138), gluonts side modelled
from the spec -/

/-- A (context, future) window pair in GluonTS format. -/
structure GluontsWindow (α : Type) where
  pastTarget : List (Option α)
  futureTarget : List (Option α)
deriving DecidableEq

/-- Modelled from the spec: the gluonts `InstanceSplitter` driven by
`ValidationSplitSampler(min_future=prediction_length)` is external library
code not under `src/`.  Per spec §4.2, validation mode deterministically
takes for each series the single trailing window: the most recent
`context_length` observations before the split point (left-padded with the
missing-value sentinel) as context, and the final up-to-`prediction_length`
observations as future. -/
def validationWindow (C h : Nat) (s : List (Option α)) : GluontsWindow α :=
  let split := s.length - h
  { pastTarget := getContext C (s.take split)
    futureTarget := s.drop split }

/-- Embeds `ChronosFineTuningDataset.__iter__` in validation mode: one
window per series, in input order. -/
def validationWindows (C h : Nat) (series : List (List (Option α))) :
    List (GluontsWindow α) :=
  series.map (validationWindow C h)

/-- Modelled from the spec: the gluonts `ExpectedNumInstanceSampler` with
`min_future=prediction_length` is external library code not under `src/`.
Per spec §4.2, training mode samples split points such that at least
`prediction_length` future observations exist before the natural end of the
series; this enumerates the valid split points of a length-`L` series. -/
def trainingSplitPoints (predictionLength L : Nat) : List Nat :=
  (List.range (L + 1)).filter (fun i => i + predictionLength ≤ L)

/-- The windows a single series can contribute during one training pass:
one window per valid split point. -/
def trainingWindowsForSeries (C h : Nat) (s : List (Option α)) :
    List (GluontsWindow α) :=
  (trainingSplitPoints h s.length).map (fun split =>
    { pastTarget := getContext C (s.take split)
      futureTarget := (s.drop split).take h })

/-! ### One-shot iterator model -/

/-- A consumed-once pull-based iterator: `next` pops the head; an exhausted
iterator keeps returning `none` (there is no reset operation, so it cannot
be restarted without reconstruction). -/
structure ChronosIterator (α : Type) where
  remaining : List α

/-- Pop the next element, or `none` when exhausted. -/
def ChronosIterator.next (it : ChronosIterator α) :
    Option (α × ChronosIterator α) :=
  match it.remaining with
  | [] => none
  | x :: rest => some (x, ⟨rest⟩)

/-- Pull until exhaustion; returns the emitted elements and the final
iterator state. -/
def ChronosIterator.consumeAll : ChronosIterator α → List α × ChronosIterator α
  | ⟨[]⟩ => ([], ⟨[]⟩)
  | ⟨x :: rest⟩ =>
    let r := ChronosIterator.consumeAll ⟨rest⟩
    (x :: r.1, r.2)

theorem consumeAll_spec (l : List α) :
    ChronosIterator.consumeAll (⟨l⟩ : ChronosIterator α) = (l, ⟨[]⟩) := by
  induction l with
  | nil => simp [ChronosIterator.consumeAll]
  | cons x rest ih => simp [ChronosIterator.consumeAll, ih]

/-! ### Claim theorems -/

/-- C1 (amended): for every series of length `L` stored in a
`ChronosInferenceDataset` constructed with `context_length = W > 0`,
provided the total number of observations across all series is below
`2^31` (so the int32 offset pointers in `indptr` do not wrap),
`__getitem__` on that series returns exactly `W` values whose last
`min L W` entries equal the last `min L W` observations of the series in
order and whose first `W - L` entries are the missing-value sentinel.
Without the bound the property fails: see `C1_counterexample`. -/
theorem C1_getitem_last_window (series : List (List (Option α))) (W i : Nat)
    (hi : i < series.length) (_hW : 0 < W)
    (hbound : series.flatten.length < 2 ^ 31) :
    (getitem (mkInferenceDataset series W) i).length = W ∧
    (getitem (mkInferenceDataset series W) i).drop
        (W - min (series.get ⟨i, hi⟩).length W) =
      (series.get ⟨i, hi⟩).drop
        ((series.get ⟨i, hi⟩).length - min (series.get ⟨i, hi⟩).length W) ∧
    (getitem (mkInferenceDataset series W) i).take
        (W - (series.get ⟨i, hi⟩).length) =
      List.replicate (W - (series.get ⟨i, hi⟩).length) none := by
  rw [getitem_eq_getContext series W i hi hbound]
  exact ⟨getContext_length W _, getContext_tail W _, getContext_pad W _⟩

/-- Witness for C1 at the spec's own example: series `[1,2,3]` with
`context_length = 5` yields a window of length 5. -/
theorem C1_witness :
    (getitem (mkInferenceDataset [[some (1 : ℕ), some 2, some 3]] 5)
      0).length = 5 :=
  (C1_getitem_last_window [[some (1 : ℕ), some 2, some 3]] 5 0 (by decide)
    (by decide) (by decide)).1

/-- Counterexample to C1 as originally stated (without any bound on the
total number of observations): a single series of `2^31` observations
stored with `context_length = 1`.  Its cumulative size wraps to `-2^31`
under `astype(np.int32)`, so `target_array[0:-2^31]` is empty and
`__getitem__` returns the fully padded window `[NaN]` instead of the
series tail: its last `min L W = 1` entries do not equal the last
observation of the series. -/
theorem C1_counterexample :
    ¬ ((getitem (mkInferenceDataset [List.replicate (2 ^ 31)
          (some (0 : ℕ))] 1) 0).drop
        (1 - min (List.replicate (2 ^ 31) (some (0 : ℕ))).length 1) =
      (List.replicate (2 ^ 31) (some (0 : ℕ))).drop
        ((List.replicate (2 ^ 31) (some (0 : ℕ))).length -
          min (List.replicate (2 ^ 31) (some (0 : ℕ))).length 1)) := by
  have hA0 : (natIndptr [List.replicate (2 ^ 31) (some (0 : ℕ))]).getD 0 0 =
      0 := rfl
  have hA1 : (natIndptr [List.replicate (2 ^ 31) (some (0 : ℕ))]).getD 1 0 =
      2 ^ 31 := by
    simp only [natIndptr, List.map_cons, List.map_nil, cumsumFrom,
      List.getD_cons_succ, List.getD_cons_zero, List.length_replicate,
      Nat.zero_add]
  have hb0 : Int.bmod ((0 : Nat) : Int) (2 ^ 32) = 0 := by decide
  have hb1 : Int.bmod ((2 ^ 31 : Nat) : Int) (2 ^ 32) = -(2 ^ 31) := by
    decide
  have hl0 : (0 : Nat) < (natIndptr
      [List.replicate (2 ^ 31) (some (0 : ℕ))]).length := by
    rw [natIndptr_length]; omega
  have hl1 : (1 : Nat) < (natIndptr
      [List.replicate (2 ^ 31) (some (0 : ℕ))]).length := by
    rw [natIndptr_length]
    simp only [List.length_cons, List.length_nil]
    omega
  have c0 : (mkInferenceDataset [List.replicate (2 ^ 31) (some (0 : ℕ))]
      1).indptr.getD 0 0 = 0 :=
    (indptr_getD_bmod _ 1 0 hl0).trans
      ((congrArg (fun v : Nat => Int.bmod (v : Int) (2 ^ 32)) hA0).trans hb0)
  have c1 : (mkInferenceDataset [List.replicate (2 ^ 31) (some (0 : ℕ))]
      1).indptr.getD 1 0 = -(2 ^ 31) :=
    (indptr_getD_bmod _ 1 1 hl1).trans
      ((congrArg (fun v : Nat => Int.bmod (v : Int) (2 ^ 32)) hA1).trans hb1)
  have harr : (mkInferenceDataset [List.replicate (2 ^ 31) (some (0 : ℕ))]
      1).targetArray = List.replicate (2 ^ 31) (some (0 : ℕ)) := by
    show ([List.replicate (2 ^ 31) (some (0 : ℕ))] :
      List (List (Option ℕ))).flatten = List.replicate (2 ^ 31) (some 0)
    simp only [List.flatten_cons, List.flatten_nil, List.append_nil]
  have happ : getitem (mkInferenceDataset
      [List.replicate (2 ^ 31) (some (0 : ℕ))] 1) 0 =
      getContext 1 (pySlice (List.replicate (2 ^ 31) (some (0 : ℕ)))
        0 (-(2 ^ 31))) :=
    getitem_eval _ 0 1 _ 0 (-(2 ^ 31)) rfl harr c0 c1
  have hslice : pySlice (List.replicate (2 ^ 31) (some (0 : ℕ)))
      (0 : Int) (-(2 ^ 31)) = [] := by
    simp only [pySlice, pySliceIndex, List.length_replicate]
    norm_num
  have hwindow : getitem (mkInferenceDataset
      [List.replicate (2 ^ 31) (some (0 : ℕ))] 1) 0 = [none] :=
    happ.trans ((congrArg (getContext 1) hslice).trans rfl)
  intro hclaim
  rw [hwindow] at hclaim
  simp only [List.length_replicate] at hclaim
  rw [min_eq_right (by norm_num : (1 : Nat) ≤ 2 ^ 31),
    List.drop_replicate,
    show (2 ^ 31 : Nat) - (2 ^ 31 - 1) = 1 by norm_num] at hclaim
  simp only [Nat.sub_self, List.drop_zero, List.replicate_one] at hclaim
  simp at hclaim

/-- C2: for every non-negative buffer size `B` and finite input of `N`
elements with `N > B`, the pseudo-shuffled dataset emits exactly `N`
elements, and the multiset of emitted elements equals the multiset of the
input. -/
theorem C2_pseudoShuffle_conservation (B : Nat) (rand : Nat → Nat)
    (l : List α) (_hNB : B < l.length) :
    (pseudoShuffle B rand l).length = l.length ∧
    (pseudoShuffle B rand l : Multiset α) = (l : Multiset α) :=
  ⟨(pseudoShuffle_perm B rand l).length_eq,
    Multiset.coe_eq_coe.mpr (pseudoShuffle_perm B rand l)⟩

/-- Witness for C2 at `B = 1` and a three-element input. -/
theorem C2_witness :
    (pseudoShuffle 1 (fun _ => 0) [10, 20, 30] : List ℕ).length = 3 :=
  (C2_pseudoShuffle_conservation 1 (fun _ => 0) [10, 20, 30] (by decide)).1

/-- C3: a validation-mode `ChronosFineTuningDataset` over `K` series yields
exactly `K` windows, one per series, in input order; the resulting one-shot
iterator, once consumed, yields nothing further (it cannot be restarted
without reconstruction). -/
theorem C3_validation_one_window_per_series (C h : Nat)
    (series : List (List (Option α))) :
    (validationWindows C h series).length = series.length ∧
    (∀ i : Nat, (validationWindows C h series)[i]? =
      (series[i]?).map (validationWindow C h)) ∧
    (ChronosIterator.consumeAll
      (⟨validationWindows C h series⟩ : ChronosIterator _)).1 =
        validationWindows C h series ∧
    (ChronosIterator.consumeAll
      (ChronosIterator.consumeAll
        (⟨validationWindows C h series⟩ : ChronosIterator _)).2).1 = [] := by
  refine ⟨by simp [validationWindows], ?_, ?_, ?_⟩
  · intro i
    simp [validationWindows]
  · rw [consumeAll_spec]
  · rw [consumeAll_spec, consumeAll_spec]

/-- C4: the inference data loader yields each batch before invoking the
deadline callback; the callback raises exactly when a limit is configured
and the elapsed monotonic time strictly exceeds it; with no limit the whole
input is emitted and nothing is raised; with any limit the first batch is
always yielded, whatever the clock says. -/
theorem C4_loader_deadline {β : Type} :
    (∀ (t0 : ℚ) (clock : Nat → ℚ) (batches : List β) (k : Nat),
      loaderEmit none t0 clock batches k = (batches, false)) ∧
    (∀ s t0 t : ℚ,
      timeoutCallbackRaises (some s) t0 t = true ↔ t - t0 > s) ∧
    (∀ (seconds : Option ℚ) (t0 : ℚ) (clock : Nat → ℚ) (b : β)
      (rest : List β) (k : Nat),
      (loaderEmit seconds t0 clock (b :: rest) k).1.head? = some b) := by
  refine ⟨?_, ?_, ?_⟩
  · intro t0 clock batches
    induction batches with
    | nil => intro k; rfl
    | cons b rest ih =>
      intro k
      rw [loaderEmit]
      simp only [timeoutCallbackRaises, Bool.false_eq_true, if_false]
      rw [ih (k + 1)]
  · intro s t0 t
    simp [timeoutCallbackRaises]
  · intro seconds t0 clock b rest k
    rw [loaderEmit]
    by_cases hr : timeoutCallbackRaises seconds t0 (clock k) = true
    · rw [if_pos hr]; rfl
    · rw [if_neg hr]; rfl

/-- C5: requesting shuffling with `shuffle_buffer_size` equal to `0` or
omitted (`None`) is a pass-through: the emitted sequence is exactly the
input sequence. -/
theorem C5_shuffle_zero_passthrough (base : List α) (rand : Nat → Nat) :
    shuffleE base rand none = .ok base ∧
    shuffleE base rand (some 0) = .ok base := by
  constructor
  · rfl
  · rw [shuffleE]
    simp

/-- C6: in training mode, a series shorter than `prediction_length` admits
no valid split point, so it contributes no window on any pass; conversely a
series at least as long as `prediction_length` always contributes one. -/
theorem C6_short_series_skipped (C h : Nat) (s : List (Option α)) :
    trainingWindowsForSeries C h s = [] ↔ s.length < h := by
  rw [trainingWindowsForSeries, List.map_eq_nil_iff, trainingSplitPoints,
    List.filter_eq_nil_iff]
  constructor
  · intro hall
    have h0 := hall 0 (by simp)
    simp only [decide_eq_true_eq, Nat.zero_add] at h0
    omega
  · intro hlt i hmem
    simp only [List.mem_range] at hmem
    simp only [decide_eq_true_eq]
    omega

/-- C7: configuration errors are eager: constructing the inference dataset
with non-positive `context_length` fails with `InvalidConfiguration` at
construction (and succeeds otherwise), and requesting shuffling with a
negative `shuffle_buffer_size` fails with `InvalidConfiguration` before any
iteration (and succeeds for every non-negative or omitted size). -/
theorem C7_config_errors {α β : Type} :
    (∀ (series : List (List (Option α))) (c : Int), c ≤ 0 →
      mkInferenceDatasetChecked series c = .error .invalidConfiguration) ∧
    (∀ (series : List (List (Option α))) (c : Int), 0 < c →
      mkInferenceDatasetChecked series c =
        .ok (mkInferenceDataset series c.toNat)) ∧
    (∀ (base : List β) (rand : Nat → Nat) (b : Int), b < 0 →
      shuffleE base rand (some b) = .error .invalidConfiguration) ∧
    (∀ (base : List β) (rand : Nat → Nat) (sbs : Option Int),
      (∀ b, sbs = some b → 0 ≤ b) →
      ∃ out, shuffleE base rand sbs = .ok out) := by
  refine ⟨?_, ?_, ?_, ?_⟩
  · intro series c hc
    rw [mkInferenceDatasetChecked, if_pos hc]
  · intro series c hc
    rw [mkInferenceDatasetChecked, if_neg (by omega)]
  · intro base rand b hb
    rw [shuffleE, if_pos hb]
  · intro base rand sbs hnn
    match sbs with
    | none => exact ⟨base, rfl⟩
    | some b =>
      have hb : 0 ≤ b := hnn b rfl
      rw [shuffleE, if_neg (by omega)]
      by_cases hz : b = 0
      · rw [if_pos hz]; exact ⟨base, rfl⟩
      · rw [if_neg hz]; exact ⟨pseudoShuffle b.toNat rand base, rfl⟩

/-- Witness for C7: width 0 and buffer size -3 both fail eagerly. -/
theorem C7_witness :
    mkInferenceDatasetChecked [[some (1 : ℕ)]] 0 =
      .error .invalidConfiguration ∧
    shuffleE [(1 : ℕ)] (fun _ => 0) (some (-3)) =
      .error .invalidConfiguration :=
  ⟨(C7_config_errors (β := ℕ)).1 [[some (1 : ℕ)]] 0 (by decide),
    (C7_config_errors (α := ℕ)).2.2.1 [(1 : ℕ)] (fun _ => 0) (-3) (by decide)⟩

/-- C8: `TimeLimitCallback` records its start timestamp at
`on_train_begin`; at the end of a step it signals a graceful stop exactly
when the elapsed time since that start reaches the limit; and it only ever
returns the control unchanged or with the stop flag set — it never raises. -/
theorem C8_time_limit_guard (T tBegin now : ℚ) (c : TrainerControl)
    (hc : c.should_training_stop = false) :
    (onTrainBegin ⟨T, none⟩ tBegin).start_time = some tBegin ∧
    ((onStepEnd (onTrainBegin ⟨T, none⟩ tBegin) now c).should_training_stop
      = true ↔ now - tBegin ≥ T) ∧
    (onStepEnd (onTrainBegin ⟨T, none⟩ tBegin) now c = c ∨
      onStepEnd (onTrainBegin ⟨T, none⟩ tBegin) now c =
        { c with should_training_stop := true }) := by
  refine ⟨rfl, ?_, ?_⟩
  · rw [onStepEnd]
    by_cases hT : now - tBegin ≥ T
    · simp only [onTrainBegin, if_pos hT]
      simpa using hT
    · simp only [onTrainBegin, if_neg hT]
      simp [hc, hT]
  · rw [onStepEnd]
    by_cases hT : now - tBegin ≥ T
    · simp [onTrainBegin, if_pos hT]
    · simp [onTrainBegin, if_neg hT]

/-- Witness for C8: limit 5, start 0, step end at time 10 sets the stop
flag. -/
theorem C8_witness :
    ((onStepEnd (onTrainBegin ⟨5, none⟩ 0) 10
      ⟨false⟩).should_training_stop = true ↔ (10 : ℚ) - 0 ≥ 5) :=
  (C8_time_limit_guard 5 0 10 ⟨false⟩ rfl).2.1

/-- C9: the effective context length never exceeds 2048: a configured value
above the maximum is reduced to 2048 at model construction, and an absent
configuration infers the minimum of the longest series length and 2048. -/
theorem C9_context_length_cap :
    maximumContextLength = 2048 ∧
    (∀ (cfg : Option Nat) (longest : Nat),
      effectiveContextLength cfg longest ≤ 2048) ∧
    (∀ longest : Nat,
      effectiveContextLength none longest = min longest 2048) ∧
    (∀ c : Nat, initContextLength (some c) = some (min c 2048)) := by
  refine ⟨rfl, ?_, ?_, ?_⟩
  · intro cfg longest
    match cfg with
    | none =>
      simp [effectiveContextLength, initContextLength, getContextLength,
        maximumContextLength]
    | some c =>
      simp only [effectiveContextLength, initContextLength,
        maximumContextLength]
      by_cases hgt : c > 2048
      · rw [if_pos hgt]
        simp [getContextLength, maximumContextLength]
      · rw [if_neg hgt]
        by_cases hz : c = 0
        · simp [getContextLength, maximumContextLength, hz]
        · simp only [getContextLength, maximumContextLength, if_neg hz]
          omega
  · intro longest
    simp [effectiveContextLength, initContextLength, getContextLength,
      maximumContextLength]
  · intro c
    simp only [initContextLength, maximumContextLength]
    by_cases hgt : c > 2048
    · rw [if_pos hgt]
      congr 1
      omega
    · rw [if_neg hgt]
      congr 1
      omega

/-- C10: requesting shuffling with `shuffle_buffer_size = 1` constructs the
shuffling wrapper, yet the wrapper emits the elements in exactly the input
order: every random pop selects the single buffered element. -/
theorem C10_buffer_one_identity (base : List α) (rand : Nat → Nat) :
    shuffleE base rand (some 1) = .ok (pseudoShuffle 1 rand base) ∧
    pseudoShuffle 1 rand base = base := by
  constructor
  · rw [shuffleE]
    simp
  · exact pseudoShuffleGo_one_id rand base 0

end ChronosUtils
